import Mathlib

/-!
Verification development for the branch-state analysis and dual-strategy
rebase engine of the `ag-toolkit` repository (the `GitOperations` class).

The external version-control tool is modelled as an environment
`GitEnv : GitCmd → Except String String` assigning to every issued command
its textual result or a failure message; each operation of `GitOperations`
is embedded as a function `GitM α = GitEnv → Except String α × List GitCmd`
that returns the operation's result together with the ordered trace of
subprocess commands it issued.  JavaScript string primitives used by the
source (`trim`, `split`, `replace`, `Number`) are modelled character by
character.
-/

/-- Whitespace test used by the model of JavaScript `String.prototype.trim`. -/
def wsChar (c : Char) : Bool :=
  c = ' ' || c = '\n' || c = '\t' || c = '\r'

/-- Character-level model of JavaScript `trim`: drop whitespace from both ends. -/
def trimChars (l : List Char) : List Char :=
  ((l.dropWhile wsChar).reverse.dropWhile wsChar).reverse

/-- Character-level model of JavaScript `split` with a single-character
separator: `splitChars sep l` cuts `l` at every occurrence of `sep`,
keeping empty pieces (so the result is always nonempty). -/
def splitChars (sep : Char) : List Char → List (List Char)
  | [] => [[]]
  | c :: cs =>
    match splitChars sep cs with
    | [] => [[]]
    | l :: ls => if c = sep then [] :: l :: ls else (c :: l) :: ls

/-- Model of JavaScript `String.prototype.trim`. -/
def jsTrim (s : String) : String := String.mk (trimChars s.data)

/-- Model of JavaScript `String.prototype.split` with a one-character separator. -/
def jsSplit (sep : Char) (s : String) : List String :=
  (splitChars sep s.data).map String.mk

/-- Model of JavaScript `String.prototype.replace` with a global
single-character pattern, as in `branch.replace(/\//g, "-")`. -/
def jsReplaceAllChar (a b : Char) (s : String) : String :=
  String.mk (s.data.map (fun c => if c = a then b else c))

/-- Decimal digits to a natural number (used by the model of `Number`). -/
def digitsToNat (l : List Char) : Nat :=
  l.foldl (fun acc c => acc * 10 + (c.toNat - '0'.toNat)) 0

/-- Model of JavaScript `Number(...)` on the integer strings produced by the
git count queries embedded here: optional sign followed by decimal digits
(after trimming); the empty string converts to `0`; anything else is `NaN`,
represented by `none`. -/
def jsNumber (s : String) : Option Int :=
  let t := (jsTrim s).data
  if t.isEmpty then some 0
  else if t.all Char.isDigit then some (Int.ofNat (digitsToNat t))
  else
    match t with
    | '-' :: rest =>
      if !rest.isEmpty && rest.all Char.isDigit then
        some (-(Int.ofNat (digitsToNat rest)))
      else none
    | _ => none

/-- Two given characters occurring adjacently somewhere in the list
(used for the `//` and `..` rejection tests of the branch-name validator). -/
def hasSeq2 (a b : Char) : List Char → Bool
  | [] => false
  | c :: rest =>
    match rest with
    | [] => false
    | d :: _ => (c = a && d = b) || hasSeq2 a b rest

/-- A path segment ending in `.lock`. -/
def endsWithLock (seg : List Char) : Bool :=
  List.isPrefixOf ['k', 'c', 'o', 'l', '.'] seg.reverse

/-- Characters of the safe set accepted by the branch-name validator. -/
def safeChar (c : Char) : Bool :=
  c.isAlpha || c.isDigit || c = '.' || c = '_' || c = '-' || c = '/'

/-- Modelled from the spec: the implementation of `isValidBranchName`
(`src/lib/isValidBranchName.ts`) is absent from the sources, only its tests
and callers are present.  Following the spec's validator contract: the name
is non-empty; every character belongs to the safe set (which excludes
whitespace, control characters, `@{`, `:`, `?`, `*`, `[`, `\`, `^`, `~`);
no two consecutive path separators; it does not start or end with a path
separator; it contains no `..`; no path segment starts with `.`; no segment
ends with `.lock`; it does not end with `.`. -/
def isValidBranchName (name : String) : Bool :=
  let cs := name.data
  !cs.isEmpty
    && cs.all safeChar
    && !hasSeq2 '/' '/' cs
    && !hasSeq2 '.' '.' cs
    && !(cs.head? == some '/')
    && !(cs.getLast? == some '/')
    && !(cs.getLast? == some '.')
    && (splitChars '/' cs).all (fun seg => !(seg.head? == some '.') && !endsWithLock seg)

/-- The subprocess commands `GitOperations` issues through its `simple-git`
handle: `raw` argument vectors and the dedicated wrapper calls. -/
inductive GitCmd where
  | raw (args : List String)
  | checkout (args : List String)
  | push (args : List String)
  | fetch (args : List String)
  | add (path : String)
  | revparse (args : List String)
  | addAnnotatedTag (tagName message : String)
  | branchCmd (args : List String)
deriving DecidableEq, Repr

/-- The external git tool: every command yields either a textual result or a
failure message. -/
def GitEnv : Type := GitCmd → Except String String

/-- An embedded `GitOperations` method: reading the environment, it produces
the method's result (or the message of the error it throws) together with
the ordered trace of subprocess commands issued before returning. -/
def GitM (α : Type) : Type := GitEnv → Except String α × List GitCmd

def GitM.pureM {α : Type} (a : α) : GitM α := fun _ => (Except.ok a, [])

def GitM.bindM {α β : Type} (m : GitM α) (f : α → GitM β) : GitM β := fun env =>
  match m env with
  | (Except.error e, t) => (Except.error e, t)
  | (Except.ok a, t) => ((f a env).1, t ++ (f a env).2)

instance : Monad GitM where
  pure := GitM.pureM
  bind := GitM.bindM

/-- Issue one subprocess command. -/
def runCmd (c : GitCmd) : GitM String := fun env => (env c, [c])

/-- Model of a JavaScript `throw`. -/
def gitThrow {α : Type} (e : String) : GitM α := fun _ => (Except.error e, [])

/-- Model of a JavaScript `try`/`catch` block: commands already issued by the
failing body remain in the trace. -/
def gitTry {α : Type} (m : GitM α) (h : String → GitM α) : GitM α := fun env =>
  match m env with
  | (Except.ok a, t) => (Except.ok a, t)
  | (Except.error e, t) => ((h e env).1, t ++ (h e env).2)

/-- Embeds `GitOperations.fetchAll`: `git fetch --all`. -/
def fetchAll : GitM Unit := do
  let _ ← runCmd (GitCmd.fetch ["--all"])
  pure ()

/-- The `show-ref --verify --quiet refs/remotes/origin/<branch>` probe. -/
def showRefRemoteCmd (branch : String) : GitCmd :=
  GitCmd.raw ["show-ref", "--verify", "--quiet", "refs/remotes/origin/" ++ branch]

/-- The `show-ref --verify --quiet refs/heads/<branch>` probe. -/
def showRefHeadsCmd (branch : String) : GitCmd :=
  GitCmd.raw ["show-ref", "--verify", "--quiet", "refs/heads/" ++ branch]

/-- Embeds `GitOperations.branchExists`: validate the name, then probe the
`origin` remote-tracking ref and fall back to the local head. -/
def branchExists (branch : String) : GitM Bool :=
  if !isValidBranchName branch then gitThrow ("Invalid branch name: " ++ branch)
  else
    gitTry
      (do
        let _ ← runCmd (showRefRemoteCmd branch)
        pure true)
      (fun _ =>
        gitTry
          (do
            let _ ← runCmd (showRefHeadsCmd branch)
            pure true)
          (fun _ => pure false))

/-- Embeds `GitOperations.resolveBranchRef`: prefer the `origin` remote-tracking
counterpart when it resolves, else the bare name. -/
def resolveBranchRef (branch : String) : GitM String :=
  gitTry
    (do
      let _ ← runCmd (showRefRemoteCmd branch)
      pure ("origin/" ++ branch))
    (fun _ => pure branch)

/-- The temporary branch name `temp-rebase-${process.pid}` derived in
`GitOperations.setupCherryPick`; the process id is a parameter of the model. -/
def tempBranchName (pid : Nat) : String := "temp-rebase-" ++ Nat.repr pid

/-- Embeds `GitOperations.setupCherryPick`: validate the target, resolve it, and
create-and-checkout the temporary branch from the resolved ref. -/
def setupCherryPick (pid : Nat) (targetBranch : String) : GitM String :=
  if !isValidBranchName targetBranch then
    gitThrow ("Invalid branch name: " ++ targetBranch)
  else do
    let checkoutTarget ← resolveBranchRef targetBranch
    let _ ← runCmd (GitCmd.checkout ["-b", tempBranchName pid, checkoutTarget])
    pure (tempBranchName pid)

/-- Embeds `GitOperations.getMergeBase`: validate both names, resolve the first,
and query `git merge-base`. -/
def getMergeBase (branch1 branch2 : String) : GitM String :=
  if !isValidBranchName branch1 then gitThrow ("Invalid branch name: " ++ branch1)
  else if !isValidBranchName branch2 then gitThrow ("Invalid branch name: " ++ branch2)
  else do
    let baseBranch ← resolveBranchRef branch1
    let result ← runCmd (GitCmd.raw ["merge-base", baseBranch, branch2])
    pure (jsTrim result)

/-- Embeds `GitOperations.deleteLocalBranch`: validate, then `git branch -d`/`-D`. -/
def deleteLocalBranch (branch : String) (force : Bool) : GitM Unit :=
  if !isValidBranchName branch then gitThrow ("Invalid branch name: " ++ branch)
  else do
    let _ ← runCmd (GitCmd.raw ["branch", if force then "-D" else "-d", branch])
    pure ()

/-- Embeds `GitOperations.deleteRemoteBranch`: validate the branch name, then push a
deletion to the remote. -/
def deleteRemoteBranch (remote name : String) : GitM Unit :=
  if !isValidBranchName name then gitThrow ("Invalid branch name: " ++ name)
  else do
    let _ ← runCmd (GitCmd.push [remote, "--delete", name])
    pure ()

/-- Embeds `GitOperations.pushWithLease`: force-with-lease push of the branch.
Note: the source performs no branch-name validation here. -/
def pushWithLease (branch : String) : GitM Unit := do
  let _ ← runCmd (GitCmd.push ["-u", "origin", branch, "--force-with-lease"])
  pure ()

/-- Embeds `GitOperations.getCommitsToCherryPick`: `git rev-list --reverse
--no-merges from..to`, split into nonempty lines. -/
def getCommitsToCherryPick (f t : String) : GitM (List String) := do
  let result ← runCmd (GitCmd.raw ["rev-list", "--reverse", "--no-merges", f ++ ".." ++ t])
  pure ((jsSplit '\n' (jsTrim result)).filter (fun l => l != ""))

/-- Embeds `GitOperations.getAheadBehind`: short-circuit on `branch == base`,
otherwise a left-right count query whose failure degrades to zero counts.
The pair is `(ahead, behind)`; `none` plays the role of `NaN`. -/
def getAheadBehind (branch base : String) : GitM (Option Int × Option Int) :=
  if branch = base then pure (some 0, some 0)
  else
    gitTry
      (do
        let result ← runCmd
          (GitCmd.raw ["rev-list", "--left-right", "--count", base ++ "..." ++ branch])
        let parts := (jsSplit '\t' (jsTrim result)).map jsNumber
        pure ((parts.get? 1).getD (some 0), (parts.get? 0).getD (some 0)))
      (fun _ => pure (some 0, some 0))

/-- Embeds `GitOperations.finishCherryPick`: check out the original branch; when a
backup is requested, read its tip, derive the backup tag name and create the
annotated tag (wrapping any failure), and only then hard-reset the original
branch to the temporary branch's tip.  The wall-clock milliseconds value
`Date.now()` is the `now` parameter of the model. -/
def finishCherryPick (currentBranch tempBranch : String) (createBackup : Bool)
    (now : Nat) : GitM Unit := do
  let _ ← runCmd (GitCmd.checkout [currentBranch])
  if createBackup then
    gitTry
      (do
        let currentShaRaw ← runCmd (GitCmd.revparse [currentBranch])
        let currentSha := jsTrim currentShaRaw
        let safeBranch := jsReplaceAllChar '/' '-' currentBranch
        let tagName := "agrb-backup-" ++ safeBranch ++ "-" ++ Nat.repr now
        let _ ← runCmd (GitCmd.addAnnotatedTag tagName
          ("Backup before agrb reset: " ++ currentBranch ++ " @ " ++ currentSha))
        pure ())
      (fun e => gitThrow ("Failed to create backup tag: " ++ e))
  else
    pure ()
  let _ ← runCmd (GitCmd.raw ["reset", "--hard", tempBranch])
  pure ()

/-- Embeds `GitOperations.performLinearRebase`: validate the target, fetch, verify
target existence, check out the current branch, resolve the target and run
the native rebase; on failure follow one of the two conflict policies.  The
fire-and-forget progress callback has no effect on control flow and is
omitted from the model. -/
def performLinearRebase (currentBranch targetBranch : String)
    (continueOnConflict : Bool) : GitM Unit :=
  if !isValidBranchName targetBranch then
    gitThrow ("Invalid branch name: " ++ targetBranch)
  else
    gitTry
      (do
        fetchAll
        let ex ← branchExists targetBranch
        if !ex then
          gitThrow ("Target branch '" ++ targetBranch ++ "' does not exist")
        else
          pure ()
        let _ ← runCmd (GitCmd.checkout [currentBranch])
        let rebaseTarget ← resolveBranchRef targetBranch
        let rebaseArgs :=
          if continueOnConflict then ["rebase", rebaseTarget, "-X", "ours"]
          else ["rebase", rebaseTarget]
        let _ ← runCmd (GitCmd.raw rebaseArgs)
        pure ())
      (fun error =>
        if continueOnConflict then
          gitTry
            (do
              let _ ← runCmd (GitCmd.checkout ["--ours", "."])
              let _ ← runCmd (GitCmd.add ".")
              let _ ← runCmd (GitCmd.raw ["rebase", "--continue"])
              pure ())
            (fun e => do
              gitTry
                (do
                  let _ ← runCmd (GitCmd.raw ["rebase", "--abort"])
                  pure ())
                (fun _ => pure ())
              gitThrow ("Linear rebase failed during continue: " ++ e))
        else do
          gitTry
            (do
              let _ ← runCmd (GitCmd.raw ["rebase", "--abort"])
              pure ())
            (fun _ => pure ())
          gitThrow ("Linear rebase failed: " ++ error))

/-- Branch record type tag. -/
inductive BranchType where
  | «local»
  | remote
deriving DecidableEq, Repr

/-- A partially populated branch record, as produced by the reference
lister before merged/ahead/behind annotation (`Omit<BranchInfo, ...>`).
Dates are integral epoch milliseconds (`Date.getTime()`). -/
structure BranchEntry where
  ref : String
  name : String
  type : BranchType
  remote : Option String
  lastCommitDate : Option Int
  lastCommitSha : Option String
  lastCommitSubject : Option String
deriving DecidableEq, Repr

/-- A fully annotated branch record (`BranchInfo`).  The `ahead`/`behind`
counts are JavaScript numbers; `none` plays the role of `NaN`. -/
structure BranchInfo where
  ref : String
  name : String
  type : BranchType
  remote : Option String
  lastCommitDate : Option Int
  lastCommitSha : Option String
  lastCommitSubject : Option String
  isMerged : Bool
  ahead : Option Int
  behind : Option Int
deriving DecidableEq, Repr

/-- Embeds `GitOperations.getBaseBranch`: probe the fixed remote candidates against
the `-r` branch listing, then the local candidates against the local
listing. -/
def getBaseBranch (remoteBranches localBranches : List String) : Option String :=
  match ["origin/main", "origin/master", "origin/develop"].find?
      (fun b => remoteBranches.contains (jsTrim b)) with
  | some b => some (jsTrim b)
  | none =>
    match ["main", "master", "develop"].find? (fun b => localBranches.contains b) with
    | some b => some b
    | none => none

/-- The base-branch resolution policy in the spec's words: the first
existing candidate of `origin/main`, `origin/master`, `origin/develop` over
remote branches, then `main`, `master`, `develop` over local branches, else
absent.  Stated separately from `getBaseBranch` to compare the code against
the spec. -/
def baseBranchSpec (remoteBranches localBranches : List String) : Option String :=
  (["origin/main", "origin/master", "origin/develop"].find?
      (fun b => remoteBranches.contains b)).orElse
    (fun _ => ["main", "master", "develop"].find? (fun b => localBranches.contains b))

/-- Embeds `lastCommitDate?.getTime() ?? 0`: the sort key of a record's date. -/
def dateKey (d : Option Int) : Int := d.getD 0

/-- The comparator passed to the final `sort` of `getBranchInfos`. -/
def branchCmp (a b : BranchInfo) : Int :=
  if a.type ≠ b.type then (if a.type = BranchType.«local» then -1 else 1)
  else dateKey b.lastCommitDate - dateKey a.lastCommitDate

/-- Holds when `branchCmp a b ≤ 0`: the ordering realized by a comparator-consistent
sort. -/
def branchLE (a b : BranchInfo) : Bool := decide (branchCmp a b ≤ 0)

/-- The pure assembly core of `GitOperations.getBranchInfos`: given the
results of the subprocess queries (merged sets, the `-r`/local branch
listings used by base resolution, the parsed partial records, and the
ahead/behind computation as an oracle), annotate every record and sort with
the source's comparator.  The sort is modelled by `mergeSort`, standing for
any comparator-consistent sort as JavaScript's `Array.prototype.sort` is. -/
def getBranchInfosCore (includeRemote : Bool)
    (localMerged remoteMergedRaw : List String)
    (remoteBranchList localBranchList : List String)
    (locals remotes : List BranchEntry)
    (ab : String → String → Option Int × Option Int) : List BranchInfo :=
  let baseBranch := getBaseBranch remoteBranchList localBranchList
  let remoteMerged := if includeRemote then remoteMergedRaw else []
  let remoteBranches := if includeRemote then remotes else []
  let allBranches := locals ++ remoteBranches
  let withCommitCounts := allBranches.map (fun branch =>
    let p := match baseBranch with
      | some base => ab branch.ref base
      | none => (some 0, some 0)
    { ref := branch.ref, name := branch.name, type := branch.type,
      remote := branch.remote, lastCommitDate := branch.lastCommitDate,
      lastCommitSha := branch.lastCommitSha,
      lastCommitSubject := branch.lastCommitSubject,
      isMerged :=
        if branch.type = BranchType.«local» then localMerged.contains branch.ref
        else remoteMerged.contains branch.ref,
      ahead := p.1, behind := p.2 : BranchInfo })
  withCommitCounts.mergeSort branchLE

/-- Interpretation state of the external repository: the checked-out ref,
the branch tips, and the created tags (name, target). -/
structure RepoState where
  headRef : String
  tips : String → Option String
  tags : List (String × Option String)

/-- Semantics of the issued commands on the repository, per the spec's
external-interface contract: a plain checkout moves only `HEAD`; a `-b`
checkout creates the new branch at the start point's tip; an annotated tag
records the current tip; `reset --hard <t>` moves the checked-out branch's
tip to `<t>`'s; the read-only queries change nothing. -/
def applyCmd (s : RepoState) (c : GitCmd) : RepoState :=
  match c with
  | GitCmd.checkout args =>
    match args with
    | [b] => { s with headRef := b }
    | [o, name, start] =>
      if o = "-b" then
        { headRef := name,
          tips := fun x => if x = name then s.tips start else s.tips x,
          tags := s.tags }
      else s
    | _ => s
  | GitCmd.addAnnotatedTag tagName _ =>
    { s with tags := (tagName, s.tips s.headRef) :: s.tags }
  | GitCmd.raw args =>
    match args with
    | [r, m, t] =>
      if r = "reset" && m = "--hard" then
        { s with tips := fun x => if x = s.headRef then s.tips t else s.tips x }
      else s
    | _ => s
  | _ => s

/-- Run a command trace over the repository interpretation. -/
def runTrace (s : RepoState) (cs : List GitCmd) : RepoState := cs.foldl applyCmd s

/-- The commit graph of the external repository: commit identifiers are
`0, ..., n-1` in creation order (every parent is strictly older than its
child), `parentsList[c]` being the parents of commit `c`. -/
structure CommitGraph where
  parentsList : List (List Nat)
  parentsLt : ∀ c p, p ∈ parentsList.getD c [] → p < c

def CommitGraph.n (g : CommitGraph) : Nat := g.parentsList.length

def CommitGraph.parents (g : CommitGraph) (c : Nat) : List Nat :=
  g.parentsList.getD c []

/-- Fueled ancestry test; with fuel at least the commit id it decides
reachability because parents are strictly smaller. -/
def reachFuel (g : CommitGraph) : Nat → Nat → Nat → Bool
  | 0, c, a => c == a
  | Nat.succ fuel, c, a => c == a || (g.parents c).any (fun p => reachFuel g fuel p a)

/-- Computable form of ancestry: `a` is reachable from `c` by parent edges. -/
def reachB (g : CommitGraph) (c a : Nat) : Bool := reachFuel g c c a

/-- Ancestry relation: `a` is reachable from `c` by following parent edges. -/
inductive Reaches (g : CommitGraph) : Nat → Nat → Prop where
  | refl (c : Nat) : Reaches g c c
  | step (c p a : Nat) : p ∈ g.parents c → Reaches g p a → Reaches g c a

/-- A merge commit has at least two parents. -/
def isMergeCommit (g : CommitGraph) (c : Nat) : Bool := 2 ≤ (g.parents c).length

/-- Model of `git rev-list --reverse --no-merges from..to`: the non-merge
commits reachable from `to` but not from `from`, oldest (smallest id)
first. -/
def revListModel (g : CommitGraph) (cf ct : Nat) : List Nat :=
  (List.range g.n).filter
    (fun c => reachB g ct c && !reachB g cf c && !isMergeCommit g c)

/-- Model of the rev-list subprocess output: one line per sha, each
terminated by a newline. -/
def renderLinesChars : List (List Char) → List Char
  | [] => []
  | l :: ls => l ++ '\n' :: renderLinesChars ls

/-- String form of `renderLinesChars`. -/
def renderLines (ls : List String) : String :=
  String.mk (renderLinesChars (ls.map String.data))

/-- Decidable form of the `CommitGraph` well-formedness condition, for
constructing concrete graphs. -/
def parentsOk (l : List (List Nat)) : Bool :=
  (List.range l.length).all (fun i => (l.getD i []).all (fun p => decide (p < i)))

def parentsOk_sound (l : List (List Nat)) (h : parentsOk l = true) :
    ∀ c p, p ∈ l.getD c [] → p < c := by
  intro c p hp
  by_cases hc : c < l.length
  · have h1 := (List.all_eq_true.mp h) c (List.mem_range.mpr hc)
    have h2 := (List.all_eq_true.mp h1) p hp
    exact of_decide_eq_true h2
  · rw [List.getD_eq_default] at hp
    · simp at hp
    · omega

/-- Newline-separated (not newline-terminated) join of lines. -/
def interChars : List (List Char) → List Char
  | [] => []
  | [l] => l
  | l :: l2 :: ls => l ++ '\n' :: interChars (l2 :: ls)

/-- A git environment in which the rebase target does not exist under any of
the probed namespaces and every rebase-family command fails (as it does when
no rebase is in progress), while fetch, checkout and staging succeed. -/
def envMissingTarget : GitEnv := fun c =>
  match c with
  | GitCmd.raw ("show-ref" :: _) => Except.error "fatal: not a valid ref"
  | GitCmd.raw ("rebase" :: _) => Except.error "fatal: no rebase in progress"
  | _ => Except.ok ""

/-- A git environment with a conflicting rebase: every rebase-family command
fails, everything else succeeds. -/
def envConflict : GitEnv := fun c =>
  match c with
  | GitCmd.raw ("rebase" :: _) => Except.error "CONFLICT"
  | _ => Except.ok ""

/-- A git environment in which every command succeeds with empty output. -/
def envAllOk : GitEnv := fun _ => Except.ok ""

/-- The backup tag name derived in `finishCherryPick`: the slugified branch
name with a timestamp suffix. -/
def backupTagName (cur : String) (now : Nat) : String :=
  "agrb-backup-" ++ jsReplaceAllChar '/' '-' cur ++ "-" ++ Nat.repr now

/-- The annotated-tag command issued by `finishCherryPick` for a backup. -/
def backupTagCmd (cur shaOut : String) (now : Nat) : GitCmd :=
  GitCmd.addAnnotatedTag (backupTagName cur now)
    ("Backup before agrb reset: " ++ cur ++ " @ " ++ jsTrim shaOut)

/-- A git environment in which annotated-tag creation fails and everything
else succeeds. -/
def envTagFails : GitEnv := fun c =>
  match c with
  | GitCmd.addAnnotatedTag _ _ => Except.error "tag already exists"
  | _ => Except.ok "deadbeef"

/-- A concrete repository interpretation state for the C1 witness. -/
def stateWit : RepoState :=
  { headRef := "temp-rebase-42", tips := fun b => if b = "feat/x" then some "c1" else none,
    tags := [] }

/-- A concrete five-commit graph for the C5 witness: commit `3` is a merge
of `1` and `2`; `4` sits on top of the merge. -/
def graphWit : CommitGraph :=
  ⟨[[], [0], [0], [1, 2], [3]], parentsOk_sound _ (by decide)⟩

/-- An environment whose rev-list output renders the model's answer for the
C5 witness graph. -/
def envRevList : GitEnv :=
  fun _ => Except.ok (renderLines ((revListModel graphWit 1 4).map Nat.repr))

theorem run_bind {α β : Type} (m : GitM α) (f : α → GitM β) (env : GitEnv) :
    (m >>= f) env =
      match m env with
      | (Except.error e, t) => (Except.error e, t)
      | (Except.ok a, t) => ((f a env).1, t ++ (f a env).2) := rfl

theorem run_bind_ok {α β : Type} {m : GitM α} {f : α → GitM β} {env : GitEnv}
    {a : α} {t : List GitCmd} (h : m env = (Except.ok a, t)) :
    (m >>= f) env = ((f a env).1, t ++ (f a env).2) := by
  rw [run_bind, h]

theorem run_bind_err {α β : Type} {m : GitM α} {f : α → GitM β} {env : GitEnv}
    {e : String} {t : List GitCmd} (h : m env = (Except.error e, t)) :
    (m >>= f) env = (Except.error e, t) := by
  rw [run_bind, h]

theorem run_pure {α : Type} (a : α) (env : GitEnv) :
    (pure a : GitM α) env = (Except.ok a, []) := rfl

theorem run_runCmd (c : GitCmd) (env : GitEnv) : runCmd c env = (env c, [c]) := rfl

theorem run_gitTry_ok {α : Type} {m : GitM α} {h : String → GitM α} {env : GitEnv}
    {a : α} {t : List GitCmd} (hm : m env = (Except.ok a, t)) :
    gitTry m h env = (Except.ok a, t) := by
  unfold gitTry
  rw [hm]

theorem run_gitTry_err {α : Type} {m : GitM α} {h : String → GitM α} {env : GitEnv}
    {e : String} {t : List GitCmd} (hm : m env = (Except.error e, t)) :
    gitTry m h env = ((h e env).1, t ++ (h e env).2) := by
  unfold gitTry
  rw [hm]

theorem reachFuel_sound (g : CommitGraph) :
    ∀ fuel c a, reachFuel g fuel c a = true → Reaches g c a := by
  intro fuel
  induction fuel with
  | zero =>
    intro c a h
    have : c = a := by simpa [reachFuel] using h
    subst this
    exact Reaches.refl c
  | succ fuel ih =>
    intro c a h
    simp only [reachFuel, Bool.or_eq_true, beq_iff_eq, List.any_eq_true] at h
    rcases h with h | ⟨p, hp, hr⟩
    · subst h
      exact Reaches.refl c
    · exact Reaches.step c p a hp (ih p a hr)

theorem reachFuel_complete (g : CommitGraph) {c a : Nat} (h : Reaches g c a) :
    ∀ fuel, c ≤ fuel → reachFuel g fuel c a = true := by
  induction h with
  | refl c =>
    intro fuel _
    cases fuel with
    | zero => simp [reachFuel]
    | succ f => simp [reachFuel]
  | step c p a hp _ ih =>
    intro fuel hf
    have hpc : p < c := g.parentsLt c p hp
    cases fuel with
    | zero => omega
    | succ f =>
      simp only [reachFuel, Bool.or_eq_true, beq_iff_eq, List.any_eq_true]
      exact Or.inr ⟨p, hp, ih f (by omega)⟩

theorem reachB_iff (g : CommitGraph) (c a : Nat) :
    reachB g c a = true ↔ Reaches g c a :=
  ⟨reachFuel_sound g c c a, fun h => reachFuel_complete g h c (Nat.le_refl c)⟩

theorem splitChars_ne_nil (sep : Char) (l : List Char) : splitChars sep l ≠ [] := by
  cases l with
  | nil => simp [splitChars]
  | cons c cs =>
    simp only [splitChars]
    cases h : splitChars sep cs with
    | nil => simp
    | cons m ms =>
      by_cases hc : c = sep <;> simp [hc]

theorem splitChars_append_noSep (sep : Char) (l cs : List Char)
    (hl : ∀ c ∈ l, c ≠ sep) :
    splitChars sep (l ++ cs) =
      ((l ++ (splitChars sep cs).headD []) :: (splitChars sep cs).tail) := by
  induction l with
  | nil =>
    simp only [List.nil_append]
    cases h : splitChars sep cs with
    | nil => exact absurd h (splitChars_ne_nil sep cs)
    | cons m ms => simp
  | cons c l' ih =>
    have hc : c ≠ sep := hl c (List.mem_cons_self c l')
    have ih' := ih (fun x hx => hl x (List.mem_cons_of_mem c hx))
    simp only [List.cons_append, splitChars, List.append_eq]
    rw [ih']
    simp [hc]

theorem renderLinesChars_decomp (lls : List (List Char)) (h : lls ≠ []) :
    renderLinesChars lls = interChars lls ++ ['\n'] := by
  induction lls with
  | nil => exact absurd rfl h
  | cons l ls ih =>
    cases ls with
    | nil => simp [renderLinesChars, interChars]
    | cons l2 ls' =>
      show l ++ '\n' :: renderLinesChars (l2 :: ls') = interChars (l :: l2 :: ls') ++ ['\n']
      rw [ih (by simp)]
      simp [interChars]

theorem interChars_ne_nil (lls : List (List Char)) (hne : lls ≠ [])
    (h : ∀ l ∈ lls, l ≠ []) : interChars lls ≠ [] := by
  cases lls with
  | nil => exact absurd rfl hne
  | cons l ls =>
    have hl : l ≠ [] := h l (List.mem_cons_self l ls)
    cases ls with
    | nil => simpa [interChars] using hl
    | cons l2 ls' =>
      simp only [interChars]
      intro hc
      rcases List.append_eq_nil.mp hc with ⟨_, h2⟩
      simp at h2

theorem interChars_head? (l : List Char) (ls : List (List Char)) (hl : l ≠ []) :
    (interChars (l :: ls)).head? = l.head? := by
  cases ls with
  | nil => rfl
  | cons l2 ls' =>
    obtain ⟨c, r, rfl⟩ := List.exists_cons_of_ne_nil hl
    simp [interChars]

theorem interChars_getLast? (lls : List (List Char)) (hne : lls ≠ [])
    (h : ∀ l ∈ lls, l ≠ []) :
    ∃ ll, lls.getLast? = some ll ∧ (interChars lls).getLast? = ll.getLast? := by
  induction lls with
  | nil => exact absurd rfl hne
  | cons l ls ih =>
    cases ls with
    | nil => exact ⟨l, rfl, rfl⟩
    | cons l2 ls' =>
      obtain ⟨ll, h1, h2⟩ := ih (by simp) (fun x hx => h x (List.mem_cons_of_mem l hx))
      refine ⟨ll, by rw [List.getLast?_cons_cons]; exact h1, ?_⟩
      have hx : interChars (l2 :: ls') ≠ [] :=
        interChars_ne_nil _ (by simp) (fun x hx => h x (List.mem_cons_of_mem l hx))
      simp only [interChars]
      rw [List.getLast?_append_cons]
      rw [show ('\n' :: interChars (l2 :: ls')) = ['\n'] ++ interChars (l2 :: ls') from rfl]
      rw [List.getLast?_append_of_ne_nil _ hx]
      exact h2

theorem dropWhile_eq_self_of_head {p : Char → Bool} {l : List Char}
    (h : ∀ c, l.head? = some c → p c = false) : l.dropWhile p = l := by
  cases l with
  | nil => rfl
  | cons c r =>
    have : p c = false := h c rfl
    simp [List.dropWhile, this]

theorem trim_append_nl (x : List Char) (hx : x ≠ [])
    (hh : ∀ c, x.head? = some c → wsChar c = false)
    (hl : ∀ c, x.getLast? = some c → wsChar c = false) :
    trimChars (x ++ ['\n']) = x := by
  unfold trimChars
  have h1 : (x ++ ['\n']).dropWhile wsChar = x ++ ['\n'] := by
    apply dropWhile_eq_self_of_head
    intro c hc
    obtain ⟨d, r, rfl⟩ := List.exists_cons_of_ne_nil hx
    simp only [List.cons_append, List.head?_cons, Option.some.injEq] at hc
    exact hc ▸ hh d rfl
  rw [h1, List.reverse_append, List.reverse_singleton, List.singleton_append]
  have h2 : wsChar '\n' = true := by decide
  rw [List.dropWhile_cons_of_pos h2]
  have h3 : x.reverse.dropWhile wsChar = x.reverse := by
    apply dropWhile_eq_self_of_head
    intro c hc
    rw [List.head?_reverse] at hc
    exact hl c hc
  rw [h3, List.reverse_reverse]

theorem splitChars_interChars (lls : List (List Char)) (hne : lls ≠ [])
    (h : ∀ l ∈ lls, ∀ c ∈ l, c ≠ '\n') :
    splitChars '\n' (interChars lls) = lls := by
  induction lls with
  | nil => exact absurd rfl hne
  | cons l ls ih =>
    have hlsep : ∀ c ∈ l, c ≠ '\n' := h l (List.mem_cons_self l ls)
    cases ls with
    | nil =>
      show splitChars '\n' (interChars [l]) = [l]
      have := splitChars_append_noSep '\n' l [] hlsep
      simpa [interChars, splitChars] using this
    | cons l2 ls' =>
      have ih' := ih (by simp) (fun x hx => h x (List.mem_cons_of_mem l hx))
      simp only [interChars]
      rw [splitChars_append_noSep '\n' l _ hlsep]
      simp only [splitChars, ih']
      simp

theorem stringMk_data (s : String) : String.mk s.data = s := rfl

theorem mem_of_getLast?_eq_some {α : Type} {l : List α} {c : α}
    (h : l.getLast? = some c) : c ∈ l := by
  have hm : c ∈ l.getLast? := by rw [h]; rfl
  rcases List.mem_getLast?_eq_getLast hm with ⟨hne, hc⟩
  rw [hc]
  exact List.getLast_mem hne

/-- Parsing `trim`-then-`split`-then-`filter(Boolean)` inverts the
newline-terminated rendering of nonempty whitespace-free lines. -/
theorem parse_renderLines (ls : List String)
    (h : ∀ l ∈ ls, l.data ≠ [] ∧ ∀ c ∈ l.data, wsChar c = false) :
    (jsSplit '\n' (jsTrim (renderLines ls))).filter (fun l => l != "") = ls := by
  cases ls with
  | nil => decide
  | cons l rest =>
    have hgood : ∀ x ∈ (l :: rest).map String.data, x ≠ [] :=
      fun x hx => by
        obtain ⟨s, hs, rfl⟩ := List.mem_map.mp hx
        exact (h s hs).1
    have hws : ∀ x ∈ (l :: rest).map String.data, ∀ c ∈ x, wsChar c = false :=
      fun x hx c hc => by
        obtain ⟨s, hs, rfl⟩ := List.mem_map.mp hx
        exact (h s hs).2 c hc
    have hnl : ∀ x ∈ (l :: rest).map String.data, ∀ c ∈ x, c ≠ '\n' := by
      intro x hx c hc hcontra
      have := hws x hx c hc
      rw [hcontra] at this
      simp [wsChar] at this
    have hmapne : (l :: rest).map String.data ≠ [] := by simp
    have hinter := interChars_ne_nil _ hmapne hgood
    have htrim : trimChars (renderLinesChars ((l :: rest).map String.data)) =
        interChars ((l :: rest).map String.data) := by
      rw [renderLinesChars_decomp _ hmapne]
      apply trim_append_nl _ hinter
      · intro c hc
        rw [List.map_cons, interChars_head? _ _ (hgood l.data (by simp))] at hc
        exact hws l.data (by simp) c (List.mem_of_mem_head? hc)
      · intro c hc
        obtain ⟨ll, h1, h2⟩ := interChars_getLast? _ hmapne hgood
        rw [h2] at hc
        have hllmem : ll ∈ (l :: rest).map String.data := mem_of_getLast?_eq_some h1
        exact hws ll hllmem c (mem_of_getLast?_eq_some hc)
    have hsplit := splitChars_interChars _ hmapne hnl
    show ((splitChars '\n' (trimChars (renderLinesChars ((l :: rest).map String.data)))).map
        String.mk).filter (fun x => x != "") = l :: rest
    rw [htrim, hsplit, List.map_map]
    have hid : ((l :: rest).map (String.mk ∘ String.data)) = l :: rest := by
      have hcomp : (String.mk ∘ String.data) = id := funext fun s => rfl
      rw [hcomp, List.map_id]
    rw [hid]
    apply List.filter_eq_self.mpr
    intro s hs
    have hdata : s.data ≠ [] := (h s hs).1
    have : s ≠ "" := by
      intro hcontra
      rw [hcontra] at hdata
      exact hdata rfl
    simpa using this

theorem branchLE_iff (a b : BranchInfo) :
    branchLE a b = true ↔
      ((a.type = BranchType.«local» ∧ b.type = BranchType.remote) ∨
        (a.type = b.type ∧ dateKey b.lastCommitDate ≤ dateKey a.lastCommitDate)) := by
  cases ha : a.type <;> cases hb : b.type <;>
    simp [branchLE, branchCmp, ha, hb] <;> omega

theorem branchLE_trans (a b c : BranchInfo) (h1 : branchLE a b = true)
    (h2 : branchLE b c = true) : branchLE a c = true := by
  rw [branchLE_iff] at h1 h2 ⊢
  rcases h1 with ⟨ha, hb⟩ | ⟨hab, hk1⟩
  · rcases h2 with ⟨hb2, _⟩ | ⟨hbc, _⟩
    · rw [hb] at hb2
      exact absurd hb2 (by simp)
    · exact Or.inl ⟨ha, hbc ▸ hb⟩
  · rcases h2 with ⟨hb2, hc⟩ | ⟨hbc, hk2⟩
    · exact Or.inl ⟨hab ▸ hb2, hc⟩
    · exact Or.inr ⟨hab.trans hbc, le_trans hk2 hk1⟩

theorem branchLE_total (a b : BranchInfo) :
    (branchLE a b || branchLE b a) = true := by
  rw [Bool.or_eq_true, branchLE_iff, branchLE_iff]
  by_cases h : a.type = b.type
  · rcases le_total (dateKey b.lastCommitDate) (dateKey a.lastCommitDate) with hk | hk
    · exact Or.inl (Or.inr ⟨h, hk⟩)
    · exact Or.inr (Or.inr ⟨h.symm, hk⟩)
  · cases ha : a.type with
    | «local» =>
      cases hb : b.type with
      | «local» => exact absurd (ha.trans hb.symm) h
      | remote => exact Or.inl (Or.inl ⟨rfl, rfl⟩)
    | remote =>
      cases hb : b.type with
      | «local» => exact Or.inr (Or.inl ⟨rfl, rfl⟩)
      | remote => exact absurd (ha.trans hb.symm) h

/-- C4: every result sequence of the branch inventory has every `local`
record before every `remote` record, and within a type the records are
non-increasing by the date key, a missing date counting as epoch `0`. -/
theorem branch_inventory_ordering (includeRemote : Bool)
    (localMerged remoteMergedRaw remoteBranchList localBranchList : List String)
    (locals remotes : List BranchEntry)
    (ab : String → String → Option Int × Option Int) :
    (getBranchInfosCore includeRemote localMerged remoteMergedRaw remoteBranchList
        localBranchList locals remotes ab).Pairwise
      (fun a b => (a.type = BranchType.«local» ∨ b.type = BranchType.remote) ∧
        (a.type = b.type → dateKey b.lastCommitDate ≤ dateKey a.lastCommitDate)) := by
  unfold getBranchInfosCore
  refine List.Pairwise.imp ?_ (List.sorted_mergeSort branchLE_trans branchLE_total _)
  intro a b hab
  rcases (branchLE_iff a b).mp hab with ⟨h1, h2⟩ | ⟨h1, h2⟩
  · refine ⟨Or.inl h1, fun ht => ?_⟩
    rw [h1, h2] at ht
    exact absurd ht (by simp)
  · refine ⟨?_, fun _ => h2⟩
    cases ha : a.type with
    | «local» => exact Or.inl rfl
    | remote => exact Or.inr (by rw [← h1, ha])

/-- Witness for C4 at a concrete inventory call. -/
theorem branch_inventory_ordering_wit :
    (getBranchInfosCore true ["a"] [] ["origin/main"] []
        [{ ref := "a", name := "a", type := BranchType.«local», remote := none,
           lastCommitDate := some 5, lastCommitSha := none, lastCommitSubject := none },
         { ref := "b", name := "b", type := BranchType.«local», remote := none,
           lastCommitDate := none, lastCommitSha := none, lastCommitSubject := none }]
        [{ ref := "origin/c", name := "c", type := BranchType.remote, remote := some "origin",
           lastCommitDate := some 9, lastCommitSha := none, lastCommitSubject := none }]
        (fun _ _ => (some 1, some 2))).Pairwise
      (fun a b => (a.type = BranchType.«local» ∨ b.type = BranchType.remote) ∧
        (a.type = b.type → dateKey b.lastCommitDate ≤ dateKey a.lastCommitDate)) :=
  branch_inventory_ordering true ["a"] [] ["origin/main"] [] _ _ _

theorem find?_congr {α : Type} {p q : α → Bool} (l : List α)
    (h : ∀ a ∈ l, p a = q a) : l.find? p = l.find? q := by
  induction l with
  | nil => rfl
  | cons a l ih =>
    rw [List.find?_cons, List.find?_cons, h a (List.mem_cons_self a l),
      ih (fun x hx => h x (List.mem_cons_of_mem a hx))]

/-- C6: base-branch resolution equals the spec's first-existing-candidate
policy; when none of the six candidates exists it is absent, and then every
inventory record carries zero ahead/behind counts. -/
theorem base_branch_resolution (includeRemote : Bool)
    (localMerged remoteMergedRaw remoteBranchList localBranchList : List String)
    (locals remotes : List BranchEntry)
    (ab : String → String → Option Int × Option Int) :
    getBaseBranch remoteBranchList localBranchList =
        baseBranchSpec remoteBranchList localBranchList ∧
    ((∀ c ∈ ["origin/main", "origin/master", "origin/develop"],
        remoteBranchList.contains c = false) →
      (∀ c ∈ ["main", "master", "develop"], localBranchList.contains c = false) →
      getBaseBranch remoteBranchList localBranchList = none) ∧
    (getBaseBranch remoteBranchList localBranchList = none →
      ∀ info ∈ getBranchInfosCore includeRemote localMerged remoteMergedRaw
          remoteBranchList localBranchList locals remotes ab,
        info.ahead = some 0 ∧ info.behind = some 0) := by
  have h1 : jsTrim "origin/main" = "origin/main" := by decide
  have h2 : jsTrim "origin/master" = "origin/master" := by decide
  have h3 : jsTrim "origin/develop" = "origin/develop" := by decide
  have hpred : (["origin/main", "origin/master", "origin/develop"].find?
        (fun b => remoteBranchList.contains (jsTrim b))) =
      (["origin/main", "origin/master", "origin/develop"].find?
        (fun b => remoteBranchList.contains b)) := by
    apply find?_congr
    intro a ha
    simp only [List.mem_cons, List.not_mem_nil, or_false] at ha
    rcases ha with rfl | rfl | rfl
    · rw [h1]
    · rw [h2]
    · rw [h3]
  have heq : getBaseBranch remoteBranchList localBranchList =
      baseBranchSpec remoteBranchList localBranchList := by
    unfold getBaseBranch baseBranchSpec
    rw [hpred]
    cases hfind : ["origin/main", "origin/master", "origin/develop"].find?
        (fun b => remoteBranchList.contains b) with
    | some b =>
      have hb : b ∈ ["origin/main", "origin/master", "origin/develop"] :=
        List.mem_of_find?_eq_some hfind
      have htrim : jsTrim b = b := by
        simp only [List.mem_cons, List.not_mem_nil, or_false] at hb
        rcases hb with rfl | rfl | rfl
        · exact h1
        · exact h2
        · exact h3
      simp [htrim, Option.orElse]
    | none =>
      cases hfind2 : ["main", "master", "develop"].find?
          (fun b => localBranchList.contains b) with
      | some b => simp [hfind2, Option.orElse]
      | none => simp [hfind2, Option.orElse]
  refine ⟨heq, ?_, ?_⟩
  · intro hr hl
    rw [heq]
    unfold baseBranchSpec
    rw [List.find?_eq_none.mpr (fun a ha => by rw [hr a ha]; simp),
      List.find?_eq_none.mpr (fun a ha => by rw [hl a ha]; simp)]
    rfl
  · intro hnone info hinfo
    unfold getBranchInfosCore at hinfo
    rw [hnone] at hinfo
    rw [List.mem_mergeSort] at hinfo
    obtain ⟨entry, _, rfl⟩ := List.mem_map.mp hinfo
    exact ⟨rfl, rfl⟩

/-- Witness for C6 at a concrete repository with none of the six candidates. -/
theorem base_branch_resolution_wit :
    getBaseBranch ["origin/x"] ["y"] = baseBranchSpec ["origin/x"] ["y"] ∧
    (∀ info ∈ getBranchInfosCore false [] [] ["origin/x"] ["y"]
        [{ ref := "y", name := "y", type := BranchType.«local», remote := none,
           lastCommitDate := none, lastCommitSha := none, lastCommitSubject := none }] []
        (fun _ _ => (some 7, some 8)),
      info.ahead = some 0 ∧ info.behind = some 0) :=
  ⟨(base_branch_resolution false [] [] ["origin/x"] ["y"]
      [{ ref := "y", name := "y", type := BranchType.«local», remote := none,
         lastCommitDate := none, lastCommitSha := none, lastCommitSubject := none }] []
      (fun _ _ => (some 7, some 8))).1,
    (base_branch_resolution false [] [] ["origin/x"] ["y"]
      [{ ref := "y", name := "y", type := BranchType.«local», remote := none,
         lastCommitDate := none, lastCommitSha := none, lastCommitSubject := none }] []
      (fun _ _ => (some 7, some 8))).2.2 (by decide)⟩

/-- C7: `getAheadBehind` returns zero counts with an empty subprocess trace
on self-comparison, and zero counts instead of an error whenever the count
query fails. -/
theorem ahead_behind_guards (b base : String) (env : GitEnv) :
    getAheadBehind b b env = (Except.ok (some 0, some 0), []) ∧
    (b ≠ base →
      ∀ e, env (GitCmd.raw ["rev-list", "--left-right", "--count",
          base ++ "..." ++ b]) = Except.error e →
        getAheadBehind b base env = (Except.ok (some 0, some 0),
          [GitCmd.raw ["rev-list", "--left-right", "--count", base ++ "..." ++ b]])) := by
  constructor
  · unfold getAheadBehind
    rw [if_pos rfl]
    rfl
  · intro hne e henv
    unfold getAheadBehind
    rw [if_neg hne]
    rw [run_gitTry_err (run_bind_err (show runCmd (GitCmd.raw ["rev-list",
      "--left-right", "--count", base ++ "..." ++ b]) env =
        (Except.error e, [GitCmd.raw ["rev-list", "--left-right", "--count",
          base ++ "..." ++ b]]) by rw [run_runCmd, henv]))]
    rfl

/-- Witness for C7: a concrete branch pair under an always-failing git. -/
theorem ahead_behind_guards_wit :
    getAheadBehind "dev" "dev" (fun _ => Except.error "boom") =
        (Except.ok (some 0, some 0), []) ∧
    getAheadBehind "dev" "main" (fun _ => Except.error "boom") =
        (Except.ok (some 0, some 0),
          [GitCmd.raw ["rev-list", "--left-right", "--count", "main" ++ "..." ++ "dev"]]) :=
  ⟨(ahead_behind_guards "dev" "main" (fun _ => Except.error "boom")).1,
    (ahead_behind_guards "dev" "main" (fun _ => Except.error "boom")).2
      (by decide) "boom" rfl⟩

theorem branchExists_run (b : String) (env : GitEnv)
    (hv : isValidBranchName b = true) :
    branchExists b env =
      match env (showRefRemoteCmd b) with
      | Except.ok _ => (Except.ok true, [showRefRemoteCmd b])
      | Except.error _ =>
        match env (showRefHeadsCmd b) with
        | Except.ok _ => (Except.ok true, [showRefRemoteCmd b, showRefHeadsCmd b])
        | Except.error _ => (Except.ok false, [showRefRemoteCmd b, showRefHeadsCmd b]) := by
  unfold branchExists
  cases h1 : env (showRefRemoteCmd b) with
  | ok s =>
    simp [hv, gitTry, run_bind, run_runCmd, run_pure, h1]
  | error e =>
    cases h2 : env (showRefHeadsCmd b) with
    | ok s2 => simp [hv, gitTry, run_bind, run_runCmd, run_pure, h1, h2]
    | error e2 => simp [hv, gitTry, run_bind, run_runCmd, run_pure, h1, h2]

theorem plr_absent_noCont (cur b : String) (env : GitEnv)
    (hv : isValidBranchName b = true) (sf e1 e2 : String)
    (hf : env (GitCmd.fetch ["--all"]) = Except.ok sf)
    (h1 : env (showRefRemoteCmd b) = Except.error e1)
    (h2 : env (showRefHeadsCmd b) = Except.error e2) :
    performLinearRebase cur b false env =
      (Except.error ("Linear rebase failed: " ++
          ("Target branch '" ++ b ++ "' does not exist")),
        [GitCmd.fetch ["--all"], showRefRemoteCmd b, showRefHeadsCmd b,
          GitCmd.raw ["rebase", "--abort"]]) := by
  unfold performLinearRebase fetchAll
  cases habort : env (GitCmd.raw ["rebase", "--abort"]) with
  | ok s =>
    simp [hv, gitTry, gitThrow, run_bind, run_runCmd, run_pure, hf, h1, h2,
      habort, branchExists_run b env hv]
  | error e =>
    simp [hv, gitTry, gitThrow, run_bind, run_runCmd, run_pure, hf, h1, h2,
      habort, branchExists_run b env hv]

theorem plr_absent_cont (cur b : String) (env : GitEnv)
    (hv : isValidBranchName b = true) (sf e1 e2 s3 s4 e5 : String)
    (hf : env (GitCmd.fetch ["--all"]) = Except.ok sf)
    (h1 : env (showRefRemoteCmd b) = Except.error e1)
    (h2 : env (showRefHeadsCmd b) = Except.error e2)
    (hco : env (GitCmd.checkout ["--ours", "."]) = Except.ok s3)
    (hadd : env (GitCmd.add ".") = Except.ok s4)
    (hrc : env (GitCmd.raw ["rebase", "--continue"]) = Except.error e5) :
    performLinearRebase cur b true env =
      (Except.error ("Linear rebase failed during continue: " ++ e5),
        [GitCmd.fetch ["--all"], showRefRemoteCmd b, showRefHeadsCmd b,
          GitCmd.checkout ["--ours", "."], GitCmd.add ".",
          GitCmd.raw ["rebase", "--continue"], GitCmd.raw ["rebase", "--abort"]]) := by
  unfold performLinearRebase fetchAll
  cases habort : env (GitCmd.raw ["rebase", "--abort"]) with
  | ok s =>
    simp [hv, gitTry, gitThrow, run_bind, run_runCmd, run_pure, hf, h1, h2,
      hco, hadd, hrc, habort, branchExists_run b env hv]
  | error e =>
    simp [hv, gitTry, gitThrow, run_bind, run_runCmd, run_pure, hf, h1, h2,
      hco, hadd, hrc, habort, branchExists_run b env hv]

/-- C3 counterexample: with the target absent after the fetch, the call does
not fail with a bare `TargetNotFound`: with `continueOnConflict` it issues a
`checkout --ours .` (a checkout), and without it the surfaced error is the
`RebaseFailed` wrapper around the target-not-found message and a
`rebase --abort` subprocess is invoked. -/
theorem linearRebase_missing_target_cex :
    (GitCmd.checkout ["--ours", "."]) ∈
        (performLinearRebase "feature" "nonexistent" true envMissingTarget).2 ∧
    (performLinearRebase "feature" "nonexistent" false envMissingTarget).1 =
        Except.error "Linear rebase failed: Target branch 'nonexistent' does not exist" ∧
    (GitCmd.raw ["rebase", "--abort"]) ∈
        (performLinearRebase "feature" "nonexistent" false envMissingTarget).2 :=
  ⟨by decide, by rfl, by decide⟩

/-- C3 (amended): when the target does not exist after the fetch, without
`continueOnConflict` the call fails with the `RebaseFailed` wrapper around
the `Target branch '<t>' does not exist` message, performing no branch
checkout and no rebase of the target — the only rebase-family command issued
is a best-effort `rebase --abort` whose own failure is swallowed; with
`continueOnConflict` the auto-resolve path runs instead (`checkout --ours .`,
`add .`, `rebase --continue`) and, when the continue fails, a best-effort
abort is issued and the call fails with `RebaseContinueFailed`. -/
theorem linearRebase_missing_target (cur b : String) (env : GitEnv)
    (hv : isValidBranchName b = true) (sf e1 e2 : String)
    (hf : env (GitCmd.fetch ["--all"]) = Except.ok sf)
    (h1 : env (showRefRemoteCmd b) = Except.error e1)
    (h2 : env (showRefHeadsCmd b) = Except.error e2) :
    performLinearRebase cur b false env =
      (Except.error ("Linear rebase failed: " ++
          ("Target branch '" ++ b ++ "' does not exist")),
        [GitCmd.fetch ["--all"], showRefRemoteCmd b, showRefHeadsCmd b,
          GitCmd.raw ["rebase", "--abort"]]) ∧
    (∀ s3 s4 e5, env (GitCmd.checkout ["--ours", "."]) = Except.ok s3 →
      env (GitCmd.add ".") = Except.ok s4 →
      env (GitCmd.raw ["rebase", "--continue"]) = Except.error e5 →
      performLinearRebase cur b true env =
        (Except.error ("Linear rebase failed during continue: " ++ e5),
          [GitCmd.fetch ["--all"], showRefRemoteCmd b, showRefHeadsCmd b,
            GitCmd.checkout ["--ours", "."], GitCmd.add ".",
            GitCmd.raw ["rebase", "--continue"], GitCmd.raw ["rebase", "--abort"]])) :=
  ⟨plr_absent_noCont cur b env hv sf e1 e2 hf h1 h2,
    fun s3 s4 e5 hco hadd hrc =>
      plr_absent_cont cur b env hv sf e1 e2 s3 s4 e5 hf h1 h2 hco hadd hrc⟩

/-- Witness for the amended C3 at the concrete missing-target environment. -/
theorem linearRebase_missing_target_wit :
    performLinearRebase "feature" "nonexistent" false envMissingTarget =
      (Except.error ("Linear rebase failed: " ++
          ("Target branch '" ++ "nonexistent" ++ "' does not exist")),
        [GitCmd.fetch ["--all"], showRefRemoteCmd "nonexistent",
          showRefHeadsCmd "nonexistent", GitCmd.raw ["rebase", "--abort"]]) ∧
    performLinearRebase "feature" "nonexistent" true envMissingTarget =
      (Except.error ("Linear rebase failed during continue: " ++
          "fatal: no rebase in progress"),
        [GitCmd.fetch ["--all"], showRefRemoteCmd "nonexistent",
          showRefHeadsCmd "nonexistent", GitCmd.checkout ["--ours", "."],
          GitCmd.add ".", GitCmd.raw ["rebase", "--continue"],
          GitCmd.raw ["rebase", "--abort"]]) :=
  ⟨(linearRebase_missing_target "feature" "nonexistent" envMissingTarget
      (by decide) "" "fatal: not a valid ref" "fatal: not a valid ref"
      rfl rfl rfl).1,
    (linearRebase_missing_target "feature" "nonexistent" envMissingTarget
      (by decide) "" "fatal: not a valid ref" "fatal: not a valid ref"
      rfl rfl rfl).2 "" "" "fatal: no rebase in progress" rfl rfl rfl⟩

/-- C9: for a valid branch name, `branchExists` reports `true` exactly when
the `origin` remote-tracking ref or the local head resolves — its result
depends on no other ref namespace, so a branch existing only under another
remote counts as absent — and `performLinearRebase` then takes the
missing-target failure path even after a successful fetch of all remotes. -/
theorem branchExists_origin_or_heads (b : String) (env : GitEnv)
    (hv : isValidBranchName b = true) :
    ((branchExists b env).1 = Except.ok true ↔
      ((env (showRefRemoteCmd b)).isOk = true ∨
        (env (showRefHeadsCmd b)).isOk = true)) ∧
    (∀ cur sf e1 e2, env (GitCmd.fetch ["--all"]) = Except.ok sf →
      env (showRefRemoteCmd b) = Except.error e1 →
      env (showRefHeadsCmd b) = Except.error e2 →
      performLinearRebase cur b false env =
        (Except.error ("Linear rebase failed: " ++
            ("Target branch '" ++ b ++ "' does not exist")),
          [GitCmd.fetch ["--all"], showRefRemoteCmd b, showRefHeadsCmd b,
            GitCmd.raw ["rebase", "--abort"]])) := by
  constructor
  · rw [branchExists_run b env hv]
    cases h1 : env (showRefRemoteCmd b) with
    | ok s => simp [Except.isOk, Except.toBool]
    | error e =>
      cases h2 : env (showRefHeadsCmd b) with
      | ok s2 => simp [Except.isOk, Except.toBool]
      | error e2 => simp [Except.isOk, Except.toBool]
  · intro cur sf e1 e2 hf h1 h2
    exact plr_absent_noCont cur b env hv sf e1 e2 hf h1 h2

/-- Witness for C9 at a concrete branch and environment. -/
theorem branchExists_origin_or_heads_wit :
    ((branchExists "topic" envMissingTarget).1 = Except.ok true ↔
      ((envMissingTarget (showRefRemoteCmd "topic")).isOk = true ∨
        (envMissingTarget (showRefHeadsCmd "topic")).isOk = true)) ∧
    performLinearRebase "feature" "topic" false envMissingTarget =
      (Except.error ("Linear rebase failed: " ++
          ("Target branch '" ++ "topic" ++ "' does not exist")),
        [GitCmd.fetch ["--all"], showRefRemoteCmd "topic", showRefHeadsCmd "topic",
          GitCmd.raw ["rebase", "--abort"]]) :=
  ⟨(branchExists_origin_or_heads "topic" envMissingTarget (by decide)).1,
    (branchExists_origin_or_heads "topic" envMissingTarget (by decide)).2
      "feature" "" "fatal: not a valid ref" "fatal: not a valid ref" rfl rfl rfl⟩

/-- C8: with `continueOnConflict` set and the initial rebase failing, the
orchestrator stages the current branch's side for all paths
(`checkout --ours .`, `add .`) and issues `rebase --continue`; when that
secondary step fails it issues a best-effort `rebase --abort` (the outcome
does not depend on the abort's own result, which is thereby swallowed) and
fails with the `RebaseContinueFailed` wrapper, never with the plain
`RebaseFailed` policy; when the continue succeeds the call completes. -/
theorem linearRebase_continue_policy (cur b : String) (env : GitEnv)
    (hv : isValidBranchName b = true) (sf s1 s2 s3 s4 e0 : String)
    (hf : env (GitCmd.fetch ["--all"]) = Except.ok sf)
    (h1 : env (showRefRemoteCmd b) = Except.ok s1)
    (hcheckout : env (GitCmd.checkout [cur]) = Except.ok s2)
    (hrebase : env (GitCmd.raw ["rebase", "origin/" ++ b, "-X", "ours"]) =
      Except.error e0)
    (hco : env (GitCmd.checkout ["--ours", "."]) = Except.ok s3)
    (hadd : env (GitCmd.add ".") = Except.ok s4) :
    (∀ s5, env (GitCmd.raw ["rebase", "--continue"]) = Except.ok s5 →
      performLinearRebase cur b true env =
        (Except.ok (),
          [GitCmd.fetch ["--all"], showRefRemoteCmd b, GitCmd.checkout [cur],
            showRefRemoteCmd b, GitCmd.raw ["rebase", "origin/" ++ b, "-X", "ours"],
            GitCmd.checkout ["--ours", "."], GitCmd.add ".",
            GitCmd.raw ["rebase", "--continue"]])) ∧
    (∀ e5, env (GitCmd.raw ["rebase", "--continue"]) = Except.error e5 →
      performLinearRebase cur b true env =
        (Except.error ("Linear rebase failed during continue: " ++ e5),
          [GitCmd.fetch ["--all"], showRefRemoteCmd b, GitCmd.checkout [cur],
            showRefRemoteCmd b, GitCmd.raw ["rebase", "origin/" ++ b, "-X", "ours"],
            GitCmd.checkout ["--ours", "."], GitCmd.add ".",
            GitCmd.raw ["rebase", "--continue"], GitCmd.raw ["rebase", "--abort"]])) := by
  constructor
  · intro s5 hrc
    unfold performLinearRebase fetchAll resolveBranchRef
    simp [hv, gitTry, gitThrow, run_bind, run_runCmd, run_pure, hf, h1,
      hcheckout, hrebase, hco, hadd, hrc, branchExists_run b env hv]
  · intro e5 hrc
    unfold performLinearRebase fetchAll resolveBranchRef
    cases habort : env (GitCmd.raw ["rebase", "--abort"]) with
    | ok s =>
      simp [hv, gitTry, gitThrow, run_bind, run_runCmd, run_pure, hf, h1,
        hcheckout, hrebase, hco, hadd, hrc, habort, branchExists_run b env hv]
    | error e =>
      simp [hv, gitTry, gitThrow, run_bind, run_runCmd, run_pure, hf, h1,
        hcheckout, hrebase, hco, hadd, hrc, habort, branchExists_run b env hv]

/-- Witness for C8 at the concrete conflicting environment. -/
theorem linearRebase_continue_policy_wit :
    performLinearRebase "feature" "main" true envConflict =
      (Except.error ("Linear rebase failed during continue: " ++ "CONFLICT"),
        [GitCmd.fetch ["--all"], showRefRemoteCmd "main", GitCmd.checkout ["feature"],
          showRefRemoteCmd "main", GitCmd.raw ["rebase", "origin/" ++ "main", "-X", "ours"],
          GitCmd.checkout ["--ours", "."], GitCmd.add ".",
          GitCmd.raw ["rebase", "--continue"], GitCmd.raw ["rebase", "--abort"]]) :=
  (linearRebase_continue_policy "feature" "main" envConflict (by decide)
      "" "" "" "" "" "CONFLICT" rfl rfl rfl rfl rfl rfl).2 "CONFLICT" rfl

theorem setupCherryPick_run (pid : Nat) (t : String) (env : GitEnv)
    (hv : isValidBranchName t = true) :
    setupCherryPick pid t env =
      ((env (GitCmd.checkout ["-b", tempBranchName pid,
          match env (showRefRemoteCmd t) with
          | Except.ok _ => "origin/" ++ t
          | Except.error _ => t])).map (fun _ => tempBranchName pid),
        [showRefRemoteCmd t,
          GitCmd.checkout ["-b", tempBranchName pid,
            match env (showRefRemoteCmd t) with
            | Except.ok _ => "origin/" ++ t
            | Except.error _ => t]]) := by
  unfold setupCherryPick resolveBranchRef
  cases h1 : env (showRefRemoteCmd t) with
  | ok s =>
    cases h2 : env (GitCmd.checkout ["-b", tempBranchName pid, "origin/" ++ t]) with
    | ok s2 =>
      simp [hv, gitTry, run_bind, run_runCmd, run_pure, h1, h2, Except.map]
    | error e2 =>
      simp [hv, gitTry, run_bind, run_runCmd, run_pure, h1, h2, Except.map]
  | error e =>
    cases h2 : env (GitCmd.checkout ["-b", tempBranchName pid, t]) with
    | ok s2 =>
      simp [hv, gitTry, run_bind, run_runCmd, run_pure, h1, h2, Except.map]
    | error e2 =>
      simp [hv, gitTry, run_bind, run_runCmd, run_pure, h1, h2, Except.map]

/-- C10: the temporary branch name of `setupCherryPick` is the fixed
function `temp-rebase-<pid>` of the process identity alone: two calls in the
same process return the same name whatever their targets, and the only
subprocess commands issued are the resolve probe and the branch-creating
checkout itself — no collision check. -/
theorem temp_branch_name_deterministic (pid : Nat) (t1 t2 : String) (env : GitEnv)
    (hv1 : isValidBranchName t1 = true) (hv2 : isValidBranchName t2 = true) :
    tempBranchName pid = "temp-rebase-" ++ Nat.repr pid ∧
    (setupCherryPick pid t1 env).2 =
      [showRefRemoteCmd t1,
        GitCmd.checkout ["-b", tempBranchName pid,
          match env (showRefRemoteCmd t1) with
          | Except.ok _ => "origin/" ++ t1
          | Except.error _ => t1]] ∧
    (∀ s, (setupCherryPick pid t1 env).1 = Except.ok s → s = tempBranchName pid) ∧
    (∀ s1 s2, (setupCherryPick pid t1 env).1 = Except.ok s1 →
      (setupCherryPick pid t2 env).1 = Except.ok s2 → s1 = s2) := by
  refine ⟨rfl, ?_, ?_, ?_⟩
  · rw [setupCherryPick_run pid t1 env hv1]
  · intro s hs
    rw [setupCherryPick_run pid t1 env hv1] at hs
    cases h2 : env (GitCmd.checkout ["-b", tempBranchName pid,
        match env (showRefRemoteCmd t1) with
        | Except.ok _ => "origin/" ++ t1
        | Except.error _ => t1]) with
    | ok s2 =>
      rw [h2] at hs
      simpa [Except.map] using hs.symm
    | error e2 =>
      rw [h2] at hs
      simp [Except.map] at hs
  · intro s1 s2 h1 h2
    rw [setupCherryPick_run pid t1 env hv1] at h1
    rw [setupCherryPick_run pid t2 env hv2] at h2
    cases ha : env (GitCmd.checkout ["-b", tempBranchName pid,
        match env (showRefRemoteCmd t1) with
        | Except.ok _ => "origin/" ++ t1
        | Except.error _ => t1]) with
    | ok sa =>
      cases hb : env (GitCmd.checkout ["-b", tempBranchName pid,
          match env (showRefRemoteCmd t2) with
          | Except.ok _ => "origin/" ++ t2
          | Except.error _ => t2]) with
      | ok sb =>
        rw [ha] at h1
        rw [hb] at h2
        simp [Except.map] at h1 h2
        rw [← h1, ← h2]
      | error eb =>
        rw [hb] at h2
        simp [Except.map] at h2
    | error ea =>
      rw [ha] at h1
      simp [Except.map] at h1

/-- Witness for C10: two same-process calls with different valid targets. -/
theorem temp_branch_name_deterministic_wit :
    tempBranchName 42 = "temp-rebase-" ++ Nat.repr 42 ∧
    (setupCherryPick 42 "alpha" envAllOk).2 =
      [showRefRemoteCmd "alpha",
        GitCmd.checkout ["-b", tempBranchName 42, "origin/" ++ "alpha"]] ∧
    (∀ s1 s2, (setupCherryPick 42 "alpha" envAllOk).1 = Except.ok s1 →
      (setupCherryPick 42 "beta" envAllOk).1 = Except.ok s2 → s1 = s2) :=
  ⟨(temp_branch_name_deterministic 42 "alpha" "beta" envAllOk (by decide) (by decide)).1,
    (temp_branch_name_deterministic 42 "alpha" "beta" envAllOk (by decide) (by decide)).2.1,
    (temp_branch_name_deterministic 42 "alpha" "beta" envAllOk (by decide) (by decide)).2.2.2⟩

/-- C2 counterexample: `pushWithLease` reaches the push subprocess with an
invalid branch name and raises no validation error. -/
theorem pushWithLease_skips_validation_cex :
    isValidBranchName "feature..branch" = false ∧
    pushWithLease "feature..branch" envAllOk =
      (Except.ok (),
        [GitCmd.push ["-u", "origin", "feature..branch", "--force-with-lease"]]) :=
  ⟨by decide, by rfl⟩

/-- C2 (amended): the delete, merge-base, setup, target-of-rebase and
existence operations validate their branch-name arguments and abort with
`InvalidReference` before issuing any subprocess; `pushWithLease`, however,
performs no validation and always issues the push with the given name in its
argument list. -/
theorem mutating_ops_validation (b : String) (hb : isValidBranchName b = false)
    (env : GitEnv) (force : Bool) (remote cur other : String) (cont : Bool)
    (pid : Nat) :
    deleteLocalBranch b force env = (Except.error ("Invalid branch name: " ++ b), []) ∧
    deleteRemoteBranch remote b env = (Except.error ("Invalid branch name: " ++ b), []) ∧
    getMergeBase b other env = (Except.error ("Invalid branch name: " ++ b), []) ∧
    (isValidBranchName other = true →
      getMergeBase other b env = (Except.error ("Invalid branch name: " ++ b), [])) ∧
    setupCherryPick pid b env = (Except.error ("Invalid branch name: " ++ b), []) ∧
    performLinearRebase cur b cont env =
      (Except.error ("Invalid branch name: " ++ b), []) ∧
    branchExists b env = (Except.error ("Invalid branch name: " ++ b), []) ∧
    pushWithLease b env =
      ((env (GitCmd.push ["-u", "origin", b, "--force-with-lease"])).map (fun _ => ()),
        [GitCmd.push ["-u", "origin", b, "--force-with-lease"]]) := by
  refine ⟨?_, ?_, ?_, ?_, ?_, ?_, ?_, ?_⟩
  · simp [deleteLocalBranch, hb, gitThrow]
  · simp [deleteRemoteBranch, hb, gitThrow]
  · simp [getMergeBase, hb, gitThrow]
  · intro hother
    simp [getMergeBase, hb, hother, gitThrow]
  · simp [setupCherryPick, hb, gitThrow]
  · simp [performLinearRebase, hb, gitThrow]
  · simp [branchExists, hb, gitThrow]
  · cases hp : env (GitCmd.push ["-u", "origin", b, "--force-with-lease"]) with
    | ok s => simp [pushWithLease, run_bind, run_runCmd, run_pure, hp, Except.map]
    | error e => simp [pushWithLease, run_bind, run_runCmd, run_pure, hp, Except.map]

/-- Witness for the amended C2 at a concrete invalid name. -/
theorem mutating_ops_validation_wit :
    deleteLocalBranch "feature..branch" false envAllOk =
      (Except.error ("Invalid branch name: " ++ "feature..branch"), []) ∧
    getMergeBase "main" "feature..branch" envAllOk =
      (Except.error ("Invalid branch name: " ++ "feature..branch"), []) ∧
    pushWithLease "feature..branch" envAllOk =
      ((envAllOk (GitCmd.push ["-u", "origin", "feature..branch",
          "--force-with-lease"])).map (fun _ => ()),
        [GitCmd.push ["-u", "origin", "feature..branch", "--force-with-lease"]]) :=
  ⟨(mutating_ops_validation "feature..branch" (by decide) envAllOk false
      "origin" "cur" "main" false 1).1,
    (mutating_ops_validation "feature..branch" (by decide) envAllOk false
      "origin" "cur" "main" false 1).2.2.2.1 (by decide),
    (mutating_ops_validation "feature..branch" (by decide) envAllOk false
      "origin" "cur" "main" false 1).2.2.2.2.2.2.2⟩

/-- C1: with `createBackup`, `finishCherryPick` creates the annotated backup
tag — which, in the repository interpretation, records the original branch's
pre-reset tip — strictly before the hard reset; if tag creation fails, the
call fails with the `BackupFailed` wrapper, the hard reset is never issued,
and no branch tip changes. -/
theorem finishCherryPick_backup_before_reset (cur temp : String) (now : Nat)
    (env : GitEnv) (s : RepoState) (s0 shaOut : String)
    (hco : env (GitCmd.checkout [cur]) = Except.ok s0)
    (hrev : env (GitCmd.revparse [cur]) = Except.ok shaOut) :
    (∀ e, env (backupTagCmd cur shaOut now) = Except.error e →
      finishCherryPick cur temp true now env =
        (Except.error ("Failed to create backup tag: " ++ e),
          [GitCmd.checkout [cur], GitCmd.revparse [cur], backupTagCmd cur shaOut now]) ∧
      (runTrace s [GitCmd.checkout [cur], GitCmd.revparse [cur],
          backupTagCmd cur shaOut now]).tips = s.tips) ∧
    (∀ s2, env (backupTagCmd cur shaOut now) = Except.ok s2 →
      finishCherryPick cur temp true now env =
        ((env (GitCmd.raw ["reset", "--hard", temp])).map (fun _ => ()),
          [GitCmd.checkout [cur], GitCmd.revparse [cur], backupTagCmd cur shaOut now,
            GitCmd.raw ["reset", "--hard", temp]]) ∧
      (runTrace s [GitCmd.checkout [cur], GitCmd.revparse [cur],
          backupTagCmd cur shaOut now]).tags =
        (backupTagName cur now, s.tips cur) :: s.tags) := by
  constructor
  · intro e htag
    refine ⟨?_, rfl⟩
    unfold finishCherryPick
    simp [backupTagCmd, backupTagName] at htag
    simp [gitTry, gitThrow, run_bind, run_runCmd, run_pure, hco, hrev, htag,
      backupTagCmd, backupTagName]
  · intro s2 htag
    refine ⟨?_, rfl⟩
    unfold finishCherryPick
    simp [backupTagCmd, backupTagName] at htag
    cases hres : env (GitCmd.raw ["reset", "--hard", temp]) with
    | ok s3 =>
      simp [gitTry, gitThrow, run_bind, run_runCmd, run_pure, hco, hrev, htag,
        hres, Except.map, backupTagCmd, backupTagName]
    | error e3 =>
      simp [gitTry, gitThrow, run_bind, run_runCmd, run_pure, hco, hrev, htag,
        hres, Except.map, backupTagCmd, backupTagName]

/-- Witness for C1: the failing-tag and succeeding-tag cases at concrete
inputs. -/
theorem finishCherryPick_backup_before_reset_wit :
    (finishCherryPick "feat/x" "temp-rebase-42" true 5 envTagFails =
        (Except.error ("Failed to create backup tag: " ++ "tag already exists"),
          [GitCmd.checkout ["feat/x"], GitCmd.revparse ["feat/x"],
            backupTagCmd "feat/x" "deadbeef" 5]) ∧
      (runTrace stateWit [GitCmd.checkout ["feat/x"], GitCmd.revparse ["feat/x"],
          backupTagCmd "feat/x" "deadbeef" 5]).tips = stateWit.tips) ∧
    ((runTrace stateWit [GitCmd.checkout ["feat/x"], GitCmd.revparse ["feat/x"],
          backupTagCmd "feat/x" "" 5]).tags =
        (backupTagName "feat/x" 5, stateWit.tips "feat/x") :: stateWit.tags) :=
  ⟨(finishCherryPick_backup_before_reset "feat/x" "temp-rebase-42" 5 envTagFails
      stateWit "deadbeef" "deadbeef" rfl rfl).1 "tag already exists" rfl,
    ((finishCherryPick_backup_before_reset "feat/x" "temp-rebase-42" 5 envAllOk
      stateWit "" "" rfl rfl).2 "" rfl).2⟩

/-- C5: when the rev-list subprocess reports per the commit-graph model,
`getCommitsToCherryPick from to` returns exactly the renderings of the
non-merge commits reachable from `to` but not from `from`, in ascending
creation order (oldest first), with no reordering and no duplicates. -/
theorem cherry_pick_queue_spec (g : CommitGraph) (cf ct : Nat)
    (render : Nat → String) (f t : String) (env : GitEnv)
    (hrender : ∀ c ∈ revListModel g cf ct,
      (render c).data ≠ [] ∧ ∀ ch ∈ (render c).data, wsChar ch = false)
    (hinj : (revListModel g cf ct).Pairwise (fun c d => render c ≠ render d))
    (henv : env (GitCmd.raw ["rev-list", "--reverse", "--no-merges", f ++ ".." ++ t]) =
      Except.ok (renderLines ((revListModel g cf ct).map render))) :
    getCommitsToCherryPick f t env =
      (Except.ok ((revListModel g cf ct).map render),
        [GitCmd.raw ["rev-list", "--reverse", "--no-merges", f ++ ".." ++ t]]) ∧
    (∀ sha, sha ∈ (revListModel g cf ct).map render ↔
      ∃ c, Reaches g ct c ∧ ¬ Reaches g cf c ∧ isMergeCommit g c = false ∧
        c < g.n ∧ sha = render c) ∧
    (revListModel g cf ct).Chain' (· < ·) ∧
    ((revListModel g cf ct).map render).Nodup := by
  have hparse : (jsSplit '\n' (jsTrim (renderLines
      ((revListModel g cf ct).map render)))).filter (fun l => l != "") =
      (revListModel g cf ct).map render := by
    apply parse_renderLines
    intro l hl
    obtain ⟨c, hc, rfl⟩ := List.mem_map.mp hl
    exact hrender c hc
  refine ⟨?_, ?_, ?_, ?_⟩
  · unfold getCommitsToCherryPick
    rw [run_bind_ok (show runCmd (GitCmd.raw ["rev-list", "--reverse",
        "--no-merges", f ++ ".." ++ t]) env =
      (Except.ok (renderLines ((revListModel g cf ct).map render)),
        [GitCmd.raw ["rev-list", "--reverse", "--no-merges", f ++ ".." ++ t]])
      by rw [run_runCmd, henv])]
    rw [run_pure]
    rw [hparse]
    simp
  · intro sha
    constructor
    · intro hs
      obtain ⟨c, hc, rfl⟩ := List.mem_map.mp hs
      rw [revListModel, List.mem_filter, List.mem_range] at hc
      obtain ⟨hcn, hp⟩ := hc
      rw [Bool.and_eq_true, Bool.and_eq_true] at hp
      obtain ⟨⟨hr1, hr2⟩, hr3⟩ := hp
      refine ⟨c, (reachB_iff g ct c).mp hr1, ?_, ?_, hcn, rfl⟩
      · intro hcontra
        rw [Bool.not_eq_true'] at hr2
        rw [(reachB_iff g cf c).mpr hcontra] at hr2
        simp at hr2
      · rw [Bool.not_eq_true'] at hr3
        exact hr3
    · rintro ⟨c, hreach, hnreach, hmerge, hcn, rfl⟩
      apply List.mem_map.mpr
      refine ⟨c, ?_, rfl⟩
      rw [revListModel, List.mem_filter, List.mem_range]
      refine ⟨hcn, ?_⟩
      rw [Bool.and_eq_true, Bool.and_eq_true]
      refine ⟨⟨(reachB_iff g ct c).mpr hreach, ?_⟩, ?_⟩
      · rw [Bool.not_eq_true']
        cases hb : reachB g cf c with
        | false => rfl
        | true => exact absurd ((reachB_iff g cf c).mp hb) hnreach
      · rw [Bool.not_eq_true', hmerge]
  · exact List.Pairwise.chain' ((List.pairwise_lt_range g.n).filter _)
  · exact hinj.map render (fun a b h => h)

/-- Witness for C5: parsing the concrete output yields exactly the model's
oldest-first non-merge commits `[2, 4]`. -/
theorem cherry_pick_queue_spec_wit :
    getCommitsToCherryPick "main" "feature" envRevList =
      (Except.ok ((revListModel graphWit 1 4).map Nat.repr),
        [GitCmd.raw ["rev-list", "--reverse", "--no-merges",
          "main" ++ ".." ++ "feature"]]) ∧
    (revListModel graphWit 1 4).map Nat.repr = ["2", "4"] ∧
    (revListModel graphWit 1 4).Chain' (· < ·) ∧
    ((revListModel graphWit 1 4).map Nat.repr).Nodup :=
  ⟨(cherry_pick_queue_spec graphWit 1 4 Nat.repr "main" "feature" envRevList
      (by decide) (by decide) rfl).1,
    by decide,
    (cherry_pick_queue_spec graphWit 1 4 Nat.repr "main" "feature" envRevList
      (by decide) (by decide) rfl).2.2.1,
    (cherry_pick_queue_spec graphWit 1 4 Nat.repr "main" "feature" envRevList
      (by decide) (by decide) rfl).2.2.2⟩
